import Mathlib

/-!
Verification development for the linter-bundle orchestration core.

Shallow embedding of:
- `src/lib/helpers.js` (message keys, normalization, the added/kept/removed diff),
- the `MessageRegistry` reconciliation store (`src/unnamed/part_002`),
- the `LinterRegistry` dispatch coordinator (`src/lib/toggle-view.js`, third segment),
- the `EditorLinter` change-debounce controller (`src/lib/editor-linter.js`).

JavaScript objects become Lean structures; a JS value that may be
`null`/`undefined` becomes an `Option`; the JS `Map`/`Set` collections become
association lists/string lists used only through membership, which matches how
the source uses them.  Mutation becomes explicit state passing.
-/

namespace LinterBundle

/-- List membership test for strings; models JS `Array.includes` and `Set.has`
(both are used only for membership in the source). -/
def memStr (l : List String) (s : String) : Bool :=
  l.any (fun x => x = s)

theorem memStr_iff (l : List String) (s : String) : memStr l s = true ↔ s ∈ l := by
  constructor
  · intro h
    obtain ⟨x, hx, he⟩ := List.any_eq_true.mp h
    have hxs : x = s := of_decide_eq_true he
    exact hxs ▸ hx
  · intro h
    exact List.any_eq_true.mpr ⟨s, h, by simp⟩

/-- A buffer point, as realized by `Point.fromObject` (`helpers.js` `getPointClass`). -/
structure MsgPoint where
  row : Nat
  column : Nat
deriving DecidableEq, Repr

/-- A buffer range; the JS field `end` is called `stop` here (`end` is reserved). -/
structure MsgRange where
  start : MsgPoint
  stop : MsgPoint
deriving DecidableEq, Repr

/-- `message.location` of the linter message schema (version 2). -/
structure MsgLocation where
  file : String
  position : MsgRange
deriving DecidableEq, Repr

/-- `message.reference`; `position` may be absent. -/
structure MsgReference where
  file : String
  position : Option MsgPoint
deriving DecidableEq, Repr

/-- A linter message (schema version 2).  `solutions` is not modelled: the
source only realizes its ranges (identity here) and it does not enter the key.
`key` and `version` are the fields written by `normalizeMessages`. -/
structure Message where
  linterName : String
  location : MsgLocation
  reference : Option MsgReference
  excerpt : String
  severity : String
  icon : Option String
  url : Option String
  description : Option String
  key : String
  version : Nat
deriving DecidableEq, Repr

/-- The key computed by `updateMessageKey` in `helpers.js`: a deterministic
string over linter name, location, reference, excerpt, severity, icon, url and
description.  A JS empty string is falsy, so an empty `icon`/`url` yields the
"null" branch, while `description` is tested with `typeof`, so an empty string
is kept. -/
def computeKey (m : Message) : String :=
  "$LINTER:" ++ m.linterName ++
  "$LOCATION:" ++ m.location.file ++ "$" ++ toString m.location.position.start.row ++
    "$" ++ toString m.location.position.start.column ++
    "$" ++ toString m.location.position.stop.row ++
    "$" ++ toString m.location.position.stop.column ++
  (match m.reference with
   | some r =>
       "$REFERENCE:" ++ r.file ++ "$" ++
       (match r.position with
        | some p => toString p.row ++ "$" ++ toString p.column
        | none => "")
   | none => "$REFERENCE:null") ++
  "$EXCERPT:" ++ m.excerpt ++
  "$SEVERITY:" ++ m.severity ++
  (match m.icon with
   | some s => if s = "" then "$ICON:null" else "$ICON:" ++ s
   | none => "$ICON:null") ++
  (match m.url with
   | some s => if s = "" then "$URL:null" else "$URL:" ++ s
   | none => "$URL:null") ++
  (match m.description with
   | some s => "$DESCRIPTION:" ++ s
   | none => "$DESCRIPTION:null")

/-- `updateMessageKey` from `helpers.js` (message with its key recomputed). -/
def updateMessageKey (m : Message) : Message :=
  { m with key := computeKey m }

/-- One message of `normalizeMessages` (`helpers.js`): realize range/point
values (identity in this model), stamp schema version 2, default the linter
name when absent (JS empty string is falsy), recompute the key. -/
def normalizeMessage (linterName : String) (m : Message) : Message :=
  let m1 := { m with version := 2 }
  let m2 := if m1.linterName = "" then { m1 with linterName := linterName } else m1
  updateMessageKey m2

/-- `normalizeMessages` from `helpers.js`, applied to a whole result list. -/
def normalizeMessages (linterName : String) (messages : List Message) : List Message :=
  messages.map (normalizeMessage linterName)

/-- Key lookup in a string-keyed association list; models `Map.has`. -/
def hasKey {α : Type} (map : List (String × α)) (k : String) : Bool :=
  map.any (fun p => p.1 = k)

/-- `Map.set` semantics of the JS `Map`: replace the value in place when the
key is present (keeping its position), otherwise append. -/
def mapSet (map : List (String × Message)) (k : String) (v : Message) :
    List (String × Message) :=
  if hasKey map k then
    map.map (fun p => if p.1 = k then (k, v) else p)
  else
    map ++ [(k, v)]

/-- `createKeyMessageMap` from `helpers.js`: key→message map built in list
order (the JS `Map` iterates in insertion order). -/
def createKeyMessageMap (messages : List Message) : List (String × Message) :=
  messages.foldl (fun acc m => mapSet acc m.key m) []

/-- Result of `flagMessages`. -/
structure FlagResult where
  oldKept : List Message
  oldRemoved : List Message
  newAdded : List Message
deriving DecidableEq, Repr

/-- The `oldKept` list of the main branch of `flagMessages`: the inputs whose
key is present in the key→message cache built from the previous list.  The JS
single partition loop pushes to `oldKept`/`newAdded` in input order, which the
two order-preserving filters reproduce. -/
def keptOf (inputs old : List Message) : List Message :=
  inputs.filter (fun input => hasKey (createKeyMessageMap old) input.key)

/-- The `newAdded` list of the main branch of `flagMessages`. -/
def addedOf (inputs old : List Message) : List Message :=
  inputs.filter (fun input => !hasKey (createKeyMessageMap old) input.key)

/-- The `oldRemoved` list of the main branch of `flagMessages`: cache entries
(in insertion order) whose key is not among the kept keys; `oldKeptKeys` is a
set used only for membership. -/
def removedOf (inputs old : List Message) : List Message :=
  ((createKeyMessageMap old).filter
    (fun p => !memStr ((keptOf inputs old).map Message.key) p.1)).map Prod.snd

/-- `flagMessages(inputs, oldMessages)` from `helpers.js`.  The JS guard
returning `null` for `undefined` arguments has no counterpart here because
every call site passes defined arrays. -/
def flagMessages (inputs oldMessages : List Message) : FlagResult :=
  if oldMessages.length = 0 then ⟨[], [], inputs⟩
  else if inputs.length = 0 then ⟨[], oldMessages, []⟩
  else ⟨keptOf inputs oldMessages, removedOf inputs oldMessages, addedOf inputs oldMessages⟩

theorem hasKey_iff (map : List (String × Message)) (k : String) :
    hasKey map k = true ↔ ∃ p ∈ map, p.1 = k := by
  constructor
  · intro h
    obtain ⟨p, hp, he⟩ := List.any_eq_true.mp h
    exact ⟨p, hp, of_decide_eq_true he⟩
  · rintro ⟨p, hp, he⟩
    exact List.any_eq_true.mpr ⟨p, hp, by simp [he]⟩

theorem fst_mem_of_mem_mapSet (map : List (String × Message)) (k : String) (v : Message)
    (p : String × Message) (hp : p ∈ mapSet map k v) :
    (∃ q ∈ map, q.1 = p.1) ∨ p.1 = k := by
  unfold mapSet at hp
  by_cases h : hasKey map k = true
  · rw [if_pos h] at hp
    obtain ⟨q, hq, rfl⟩ := List.mem_map.mp hp
    by_cases hqk : q.1 = k
    · right; rw [if_pos hqk]
    · left; exact ⟨q, hq, by rw [if_neg hqk]⟩
  · rw [if_neg h] at hp
    rcases List.mem_append.mp hp with h1 | h2
    · exact Or.inl ⟨p, h1, rfl⟩
    · right
      have : p = (k, v) := by simpa using h2
      rw [this]

theorem hasKey_mapSet (map : List (String × Message)) (k : String) (v : Message) (kq : String) :
    hasKey (mapSet map k v) kq = true ↔ hasKey map kq = true ∨ kq = k := by
  constructor
  · intro h
    obtain ⟨p, hp, hpk⟩ := (hasKey_iff _ _).mp h
    rcases fst_mem_of_mem_mapSet map k v p hp with ⟨q, hq, hqp⟩ | hk
    · exact Or.inl ((hasKey_iff _ _).mpr ⟨q, hq, hqp.trans hpk⟩)
    · exact Or.inr (hpk ▸ hk)
  · intro h
    unfold mapSet
    by_cases hc : hasKey map k = true
    · rw [if_pos hc]
      rcases h with h1 | rfl
      · obtain ⟨p, hp, hpk⟩ := (hasKey_iff _ _).mp h1
        refine (hasKey_iff _ _).mpr ⟨if p.1 = k then (k, v) else p, List.mem_map.mpr ⟨p, hp, rfl⟩, ?_⟩
        by_cases hpk2 : p.1 = k
        · rw [if_pos hpk2]; rw [← hpk, hpk2]
        · rw [if_neg hpk2]; exact hpk
      · obtain ⟨p, hp, hpk⟩ := (hasKey_iff _ _).mp hc
        refine (hasKey_iff _ _).mpr ⟨if p.1 = kq then (kq, v) else p, List.mem_map.mpr ⟨p, hp, ?_⟩, ?_⟩
        · rw [hpk]
        · by_cases hpk2 : p.1 = kq
          · rw [if_pos hpk2]
          · rw [if_neg hpk2]; exact hpk
    · rw [if_neg hc]
      rcases h with h1 | rfl
      · obtain ⟨p, hp, hpk⟩ := (hasKey_iff _ _).mp h1
        exact (hasKey_iff _ _).mpr ⟨p, List.mem_append.mpr (Or.inl hp), hpk⟩
      · exact (hasKey_iff _ _).mpr ⟨(kq, v), List.mem_append.mpr (Or.inr (by simp)), rfl⟩

theorem hasKey_foldl (l : List Message) (acc : List (String × Message)) (kq : String) :
    hasKey (l.foldl (fun a m => mapSet a m.key m) acc) kq = true ↔
      hasKey acc kq = true ∨ kq ∈ l.map Message.key := by
  induction l generalizing acc with
  | nil => simp
  | cons m t ih =>
    rw [List.foldl_cons, ih, hasKey_mapSet]
    simp only [List.map_cons, List.mem_cons]
    tauto

theorem hasKey_createKeyMessageMap (l : List Message) (kq : String) :
    hasKey (createKeyMessageMap l) kq = memStr (l.map Message.key) kq := by
  have A : hasKey (createKeyMessageMap l) kq = true ↔ kq ∈ l.map Message.key := by
    unfold createKeyMessageMap
    rw [hasKey_foldl]
    simp [hasKey]
  exact Bool.eq_iff_iff.mpr (A.trans (memStr_iff _ _).symm)

theorem fst_mem_foldl_mapSet (l : List Message) (p : String × Message) :
    ∀ acc, p ∈ l.foldl (fun a m => mapSet a m.key m) acc →
      (∃ q ∈ acc, q.1 = p.1) ∨ p.1 ∈ l.map Message.key := by
  induction l with
  | nil =>
    intro acc h
    exact Or.inl ⟨p, by simpa using h, rfl⟩
  | cons m t ih =>
    intro acc h
    rw [List.foldl_cons] at h
    rcases ih (mapSet acc m.key m) h with ⟨q, hq, hqp⟩ | h2
    · rcases fst_mem_of_mem_mapSet acc m.key m q hq with ⟨r, hr, hrq⟩ | hk
      · exact Or.inl ⟨r, hr, hrq.trans hqp⟩
      · right
        rw [List.map_cons]
        exact List.mem_cons.mpr (Or.inl (by rw [← hqp]; exact hk))
    · right
      rw [List.map_cons]
      exact List.mem_cons.mpr (Or.inr h2)

theorem fst_mem_createKeyMessageMap (l : List Message) (p : String × Message)
    (hp : p ∈ createKeyMessageMap l) : p.1 ∈ l.map Message.key := by
  rcases fst_mem_foldl_mapSet l p [] hp with ⟨q, hq, _⟩ | h2
  · simp at hq
  · exact h2

theorem foldl_mapSet_of_nodup (l : List Message) (acc : List (String × Message))
    (hn : (l.map Message.key).Nodup)
    (hd : ∀ m ∈ l, hasKey acc m.key = false) :
    l.foldl (fun a m => mapSet a m.key m) acc = acc ++ l.map (fun m => (m.key, m)) := by
  induction l generalizing acc with
  | nil => simp
  | cons m t ih =>
    rw [List.foldl_cons]
    have hm : hasKey acc m.key = false := hd m (List.mem_cons_self m t)
    have hset : mapSet acc m.key m = acc ++ [(m.key, m)] := by
      unfold mapSet
      rw [hm]
      simp
    rw [hset]
    rw [List.map_cons] at hn
    have hn' := List.nodup_cons.mp hn
    rw [ih (acc ++ [(m.key, m)]) hn'.2]
    · simp
    · intro m' hm'
      have h1 : hasKey acc m'.key = false := hd m' (List.mem_cons_of_mem m hm')
      have h2 : m.key ≠ m'.key := by
        intro he
        exact hn'.1 (he ▸ List.mem_map.mpr ⟨m', hm', rfl⟩)
      rw [Bool.eq_false_iff]
      intro hc
      obtain ⟨p, hp, hpk⟩ := (hasKey_iff _ _).mp hc
      rcases List.mem_append.mp hp with h3 | h4
      · rw [Bool.eq_false_iff] at h1
        exact h1 ((hasKey_iff _ _).mpr ⟨p, h3, hpk⟩)
      · have : p = (m.key, m) := by simpa using h4
        exact h2 (by rw [← hpk, this])

theorem createKeyMessageMap_of_nodup (l : List Message) (hn : (l.map Message.key).Nodup) :
    createKeyMessageMap l = l.map (fun m => (m.key, m)) := by
  unfold createKeyMessageMap
  rw [foldl_mapSet_of_nodup l [] hn (fun m _ => rfl)]
  simp

theorem flagMessages_oldKept (inputs old : List Message) :
    (flagMessages inputs old).oldKept =
      inputs.filter (fun m => memStr (old.map Message.key) m.key) := by
  unfold flagMessages
  by_cases h1 : old.length = 0
  · rw [if_pos h1]
    rw [List.length_eq_zero] at h1
    subst h1
    symm
    apply List.filter_eq_nil_iff.mpr
    intro a _
    simp [memStr]
  · rw [if_neg h1]
    by_cases h2 : inputs.length = 0
    · rw [if_pos h2]
      rw [List.length_eq_zero] at h2
      subst h2
      simp
    · rw [if_neg h2]
      exact List.filter_congr (fun m _ => by rw [hasKey_createKeyMessageMap])

theorem flagMessages_newAdded (inputs old : List Message) :
    (flagMessages inputs old).newAdded =
      inputs.filter (fun m => !memStr (old.map Message.key) m.key) := by
  unfold flagMessages
  by_cases h1 : old.length = 0
  · rw [if_pos h1]
    rw [List.length_eq_zero] at h1
    subst h1
    symm
    apply List.filter_eq_self.mpr
    intro a _
    simp [memStr]
  · rw [if_neg h1]
    by_cases h2 : inputs.length = 0
    · rw [if_pos h2]
      rw [List.length_eq_zero] at h2
      subst h2
      simp
    · rw [if_neg h2]
      exact List.filter_congr (fun m _ => by rw [hasKey_createKeyMessageMap])

theorem flagMessages_oldRemoved (inputs old : List Message)
    (hold : (old.map Message.key).Nodup) :
    (flagMessages inputs old).oldRemoved =
      old.filter (fun m => !memStr ((flagMessages inputs old).oldKept.map Message.key) m.key) := by
  unfold flagMessages
  by_cases h1 : old.length = 0
  · rw [if_pos h1]
    rw [List.length_eq_zero] at h1
    subst h1
    simp
  · rw [if_neg h1]
    by_cases h2 : inputs.length = 0
    · rw [if_pos h2]
      rw [List.length_eq_zero] at h2
      subst h2
      exact (List.filter_eq_self.mpr (fun a _ => rfl)).symm
    · rw [if_neg h2]
      show removedOf inputs old = _
      unfold removedOf
      rw [createKeyMessageMap_of_nodup old hold, List.filter_map, List.map_map]
      have : (Prod.snd ∘ fun m : Message => (m.key, m)) = id := rfl
      rw [this, List.map_id]
      rfl

/-- A concrete message used to instantiate universally quantified theorems. -/
def mkMsg (k : String) : Message :=
  ⟨"provider", ⟨"f.js", ⟨⟨0, 0⟩, ⟨0, 5⟩⟩⟩, none, "bad", "error", none, none, none, k, 2⟩

/-- C3: for lists `old` and `new` with pairwise-distinct keys, `flagMessages`
partitions `new` into `kept` (key present in `old`) and `added` (key absent),
`removed` is exactly the messages of `old` whose key is not among the kept
keys — all characterized through key membership, hence independent of list
order — and diffing `old`→`new` then `new`→`old` recovers `old` exactly as the
`kept ∪ added` of the second diff. -/
theorem diff_partition_roundtrip (old new : List Message)
    (hold : (old.map Message.key).Nodup) (_hnew : (new.map Message.key).Nodup) :
    (flagMessages new old).oldKept = new.filter (fun m => memStr (old.map Message.key) m.key) ∧
    (flagMessages new old).newAdded = new.filter (fun m => !memStr (old.map Message.key) m.key) ∧
    (flagMessages new old).oldRemoved =
      old.filter (fun m => !memStr ((flagMessages new old).oldKept.map Message.key) m.key) ∧
    ((flagMessages old new).oldKept ++ (flagMessages old new).newAdded).Perm old := by
  refine ⟨flagMessages_oldKept new old, flagMessages_newAdded new old,
    flagMessages_oldRemoved new old hold, ?_⟩
  rw [flagMessages_oldKept old new, flagMessages_newAdded old new]
  exact List.filter_append_perm _ old

/-- C3 witness at concrete distinct-key lists. -/
theorem diff_partition_roundtrip_witness :
    ((([mkMsg "a", mkMsg "b"] : List Message).map Message.key).Nodup ∧
      (([mkMsg "b", mkMsg "c"] : List Message).map Message.key).Nodup) ∧
    ((flagMessages [mkMsg "b", mkMsg "c"] [mkMsg "a", mkMsg "b"]).oldKept =
        ([mkMsg "b", mkMsg "c"] : List Message).filter
          (fun m => memStr (([mkMsg "a", mkMsg "b"] : List Message).map Message.key) m.key) ∧
      (flagMessages [mkMsg "b", mkMsg "c"] [mkMsg "a", mkMsg "b"]).newAdded =
        ([mkMsg "b", mkMsg "c"] : List Message).filter
          (fun m => !memStr (([mkMsg "a", mkMsg "b"] : List Message).map Message.key) m.key) ∧
      (flagMessages [mkMsg "b", mkMsg "c"] [mkMsg "a", mkMsg "b"]).oldRemoved =
        ([mkMsg "a", mkMsg "b"] : List Message).filter
          (fun m => !memStr ((flagMessages [mkMsg "b", mkMsg "c"]
            [mkMsg "a", mkMsg "b"]).oldKept.map Message.key) m.key) ∧
      ((flagMessages [mkMsg "a", mkMsg "b"] [mkMsg "b", mkMsg "c"]).oldKept ++
        (flagMessages [mkMsg "a", mkMsg "b"] [mkMsg "b", mkMsg "c"]).newAdded).Perm
          [mkMsg "a", mkMsg "b"]) :=
  ⟨⟨by decide, by decide⟩,
    diff_partition_roundtrip [mkMsg "a", mkMsg "b"] [mkMsg "b", mkMsg "c"]
      (by decide) (by decide)⟩

/-- C4: diffing from an empty previous list to `M` yields `added = M` and
`removed = []`; diffing from `M` to an empty new list yields `added = []` and
`removed = M` (and in both directions nothing is kept). -/
theorem diff_empty_cases (M : List Message) :
    flagMessages M [] = ⟨[], [], M⟩ ∧
    (flagMessages [] M).newAdded = [] ∧
    (flagMessages [] M).oldRemoved = M ∧
    (flagMessages [] M).oldKept = [] := by
  refine ⟨?_, ?_, ?_, ?_⟩ <;> cases M <;> simp [flagMessages]

/-! ## The reconciliation store (`MessageRegistry`, `src/unnamed/part_002`) -/

/-- One bucket of `messagesMap`: the most recent raw result (`messages`), the
previously accepted list (`oldMessages`), and the `changed`/`deleted` flags. -/
structure BucketEntry where
  messages : List Message
  linterName : String
  bufferId : Option Nat
  oldMessages : List Message
  changed : Bool
  deleted : Bool
deriving DecidableEq, Repr

/-- The `updateState` field of `MessageRegistry`: the three-state machine
`idle`/`processing`/`pending` guarding `update()`. -/
inductive UpdState where
  | idle
  | processing
  | pending
deriving DecidableEq, Repr

/-- The `MessageRegistry` store state: the currently visible `messages`, the
per-(buffer, linter) bucket map (association list in `Map` insertion order),
and the update state machine.  Buffers are identified by their id
(`Option Nat`; `none` is the JS `null` buffer of project-scope providers). -/
structure MessageRegistry where
  messages : List Message
  messagesMap : List (String × BucketEntry)
  updateState : UpdState
deriving DecidableEq, Repr

/-- `MessageRegistry._getKey`: composite `bufferId::linterName` string key
(JS renders a `null` buffer as the string "null"). -/
def getKey (bufferId : Option Nat) (linterName : String) : String :=
  (match bufferId with
   | some i => toString i
   | none => "null") ++ "::" ++ linterName

/-- `MessageRegistry.set`: overwrite `messages` and mark `changed` when the
bucket exists, otherwise insert a fresh changed bucket with empty
`oldMessages`.  (The debounced scheduling it triggers is modelled by the
`Sched` machine below.) -/
def regSet (reg : MessageRegistry) (bufferId : Option Nat) (linterName : String)
    (msgs : List Message) : MessageRegistry :=
  if hasKey reg.messagesMap (getKey bufferId linterName) then
    { reg with
      messagesMap := reg.messagesMap.map (fun p =>
        if p.1 = getKey bufferId linterName then
          (p.1, { p.2 with messages := msgs, changed := true })
        else p) }
  else
    { reg with
      messagesMap := reg.messagesMap ++
        [(getKey bufferId linterName, ⟨msgs, linterName, bufferId, [], true, false⟩)] }

/-- The `added`/`removed`/`messages` accumulator of one `update()` pass. -/
structure PassResult where
  added : List Message
  removed : List Message
  messages : List Message
deriving DecidableEq, Repr

/-- One iteration of the `update()` loop over `messagesMap`: a deleted bucket
reports its whole accepted list as removed and is dropped; an unchanged bucket
contributes its accepted list to the full set; a changed bucket is diffed, the
delta merged (`mergeArray` is plain append), and `newAdded ++ oldKept`
(`allThisEntry`) becomes its new accepted list with `changed` cleared.  The
`flagMessages` call never returns the JS `null` here because bucket lists are
always defined. -/
def passStep (acc : PassResult × List (String × BucketEntry)) (p : String × BucketEntry) :
    PassResult × List (String × BucketEntry) :=
  if p.2.deleted then
    ({ acc.1 with removed := acc.1.removed ++ p.2.oldMessages }, acc.2)
  else if !p.2.changed then
    ({ acc.1 with messages := acc.1.messages ++ p.2.oldMessages }, acc.2 ++ [p])
  else
    let fl := flagMessages p.2.messages p.2.oldMessages
    let allThisEntry := fl.newAdded ++ fl.oldKept
    ({ added := acc.1.added ++ fl.newAdded,
       removed := acc.1.removed ++ fl.oldRemoved,
       messages := acc.1.messages ++ allThisEntry },
     acc.2 ++ [(p.1, { p.2 with changed := false, oldMessages := allThisEntry })])

/-- The body of one `update()` pass: visit every bucket in map order and
return the coalesced result together with the surviving bucket map (deleted
buckets are physically dropped after the iteration). -/
def runPass (map : List (String × BucketEntry)) : PassResult × List (String × BucketEntry) :=
  map.foldl passStep (⟨[], [], []⟩, [])

/-- Entry switch of `update()`: a request that arrives while `processing`
moves the machine to `pending` and does not run a pass; while `pending` it is
absorbed; from `idle` the machine moves to `processing` and the pass body
runs. -/
def updateEnter : UpdState → UpdState × Bool
  | UpdState.processing => (UpdState.pending, false)
  | UpdState.pending => (UpdState.pending, false)
  | UpdState.idle => (UpdState.processing, true)

/-- The `finally` block of `update()`: record whether the state was `pending`
(`wasPending`, which re-invokes the debounced scheduling), then return to
`idle`. -/
def updateFinish (s : UpdState) : UpdState × Bool :=
  (UpdState.idle, decide (s = UpdState.pending))

/-- A whole synchronous `update()` call: the entry switch, then (when a pass
runs) the pass body, the emission check (a batch is emitted only when
`added`/`removed` is non-empty, and only then is `this.messages` replaced),
and the `finally` block.  Returns the new store, the emitted batch (if any)
and the `wasPending` reschedule flag. -/
def regUpdate (reg : MessageRegistry) : MessageRegistry × Option PassResult × Bool :=
  if (updateEnter reg.updateState).2 then
    ({ messages := if !(runPass reg.messagesMap).1.added.isEmpty ||
           !(runPass reg.messagesMap).1.removed.isEmpty then
         (runPass reg.messagesMap).1.messages else reg.messages,
       messagesMap := (runPass reg.messagesMap).2,
       updateState := (updateFinish (updateEnter reg.updateState).1).1 },
     if !(runPass reg.messagesMap).1.added.isEmpty ||
         !(runPass reg.messagesMap).1.removed.isEmpty then
       some (runPass reg.messagesMap).1 else none,
     (updateFinish (updateEnter reg.updateState).1).2)
  else
    ({ reg with updateState := (updateEnter reg.updateState).1 }, none, false)

/-- Scheduler abstraction for C2: the update state machine together with the
number of concurrently executing pass bodies.  `schedUpdate` is a call to
`update()` (its entry switch); `schedFinish` is a running pass body reaching
the `finally` block, returning the `wasPending` flag that re-invokes the
debounced scheduling. -/
structure Sched where
  st : UpdState
  running : Nat
deriving DecidableEq, Repr

/-- A call to `update()` as it affects the scheduler: from `idle` a pass body
starts; from `processing` the machine records `pending`; from `pending` the
call is absorbed. -/
def schedUpdate (s : Sched) : Sched :=
  match s.st with
  | UpdState.idle => ⟨UpdState.processing, s.running + 1⟩
  | UpdState.processing => ⟨UpdState.pending, s.running⟩
  | UpdState.pending => ⟨UpdState.pending, s.running⟩

/-- A running pass completing: state returns to `idle`, the pass body count
drops, and the flag says whether the debounced scheduling is re-invoked. -/
def schedFinish (s : Sched) : Sched × Bool :=
  (⟨UpdState.idle, s.running - 1⟩, decide (s.st = UpdState.pending))

/-- States reachable from the freshly constructed registry (`idle`, no pass
running).  A `finish` event requires a running pass, since only a running pass
body executes the `finally` block. -/
inductive SchedReach : Sched → Prop where
  | init : SchedReach ⟨UpdState.idle, 0⟩
  | upd (s : Sched) : SchedReach s → SchedReach (schedUpdate s)
  | fin (s : Sched) : SchedReach s → 0 < s.running → SchedReach (schedFinish s).1

theorem sched_invariant (s : Sched) (h : SchedReach s) :
    s.running ≤ 1 ∧ (s.st = UpdState.idle → s.running = 0) := by
  induction h with
  | init => exact ⟨Nat.zero_le 1, fun _ => rfl⟩
  | upd t _ ih =>
    obtain ⟨st, d⟩ := t
    cases st
    · have hd : d = 0 := ih.2 rfl
      subst hd
      exact ⟨Nat.le_refl 1, fun hc => by simp [schedUpdate] at hc⟩
    · exact ⟨ih.1, fun hc => by simp [schedUpdate] at hc⟩
    · exact ⟨ih.1, fun hc => by simp [schedUpdate] at hc⟩
  | fin t _ hrun ih =>
    obtain ⟨st, d⟩ := t
    refine ⟨?_, fun _ => ?_⟩
    · exact Nat.le_trans (Nat.sub_le d 1) ih.1
    · have : d = 1 := Nat.le_antisymm ih.1 hrun
      simp [schedFinish, this]

/-- C2: reconciliation passes never execute concurrently — in every reachable
scheduler state at most one pass body runs; a call to `update()` while one is
`processing` moves the store to `pending` without starting a second pass;
when a running pass completes, the reschedule flag is set exactly when the
state is `pending` (a debounced re-invocation, never a synchronous second
pass: the running count drops); and an `update()` absorbed while `processing`
leaves the bucket map — every recorded mutation — untouched. -/
theorem reconciliation_never_concurrent (s : Sched) (hs : SchedReach s)
    (reg : MessageRegistry) (hreg : reg.updateState = UpdState.processing) :
    s.running ≤ 1 ∧
    (s.st = UpdState.processing → schedUpdate s = ⟨UpdState.pending, s.running⟩) ∧
    ((schedFinish s).2 = true ↔ s.st = UpdState.pending) ∧
    (schedFinish s).1.st = UpdState.idle ∧
    (schedFinish s).1.running = s.running - 1 ∧
    (regUpdate reg).1.messagesMap = reg.messagesMap ∧
    (regUpdate reg).1.updateState = UpdState.pending ∧
    (regUpdate reg).2.1 = none := by
  refine ⟨(sched_invariant s hs).1, ?_, ?_, rfl, rfl, ?_, ?_, ?_⟩
  · intro h
    obtain ⟨st, d⟩ := s
    cases st <;> simp_all [schedUpdate]
  · simp [schedFinish]
  · simp [regUpdate, hreg, updateEnter]
  · simp [regUpdate, hreg, updateEnter]
  · simp [regUpdate, hreg, updateEnter]

/-- C2 witness at the reachable state reached by two `update()` calls
(pass running, second call recorded as `pending`) and a store caught
mid-pass. -/
theorem reconciliation_never_concurrent_witness :
    (⟨UpdState.pending, 1⟩ : Sched).running ≤ 1 ∧
    ((⟨UpdState.pending, 1⟩ : Sched).st = UpdState.processing →
      schedUpdate ⟨UpdState.pending, 1⟩ = ⟨UpdState.pending, (⟨UpdState.pending, 1⟩ : Sched).running⟩) ∧
    ((schedFinish ⟨UpdState.pending, 1⟩).2 = true ↔
      (⟨UpdState.pending, 1⟩ : Sched).st = UpdState.pending) ∧
    (schedFinish ⟨UpdState.pending, 1⟩).1.st = UpdState.idle ∧
    (schedFinish ⟨UpdState.pending, 1⟩).1.running = (⟨UpdState.pending, 1⟩ : Sched).running - 1 ∧
    (regUpdate ⟨[], [], UpdState.processing⟩).1.messagesMap =
      (⟨[], [], UpdState.processing⟩ : MessageRegistry).messagesMap ∧
    (regUpdate ⟨[], [], UpdState.processing⟩).1.updateState = UpdState.pending ∧
    (regUpdate ⟨[], [], UpdState.processing⟩).2.1 = none :=
  reconciliation_never_concurrent ⟨UpdState.pending, 1⟩
    (SchedReach.upd ⟨UpdState.processing, 1⟩
      (SchedReach.upd ⟨UpdState.idle, 0⟩ SchedReach.init))
    ⟨[], [], UpdState.processing⟩ rfl

/-- C5: recommitting a message list with identical keys to the same bucket
makes the second diff keep everything (`added = removed = []`), so the
second reconciliation pass emits no batch. -/
theorem second_commit_no_batch (M M2 : List Message) (bid : Option Nat) (ln : String)
    (hk : ∀ k, k ∈ M2.map Message.key ↔ k ∈ M.map Message.key) :
    flagMessages M2 M = ⟨M2, [], []⟩ ∧
    (regUpdate ⟨M, [(getKey bid ln, ⟨M2, ln, bid, M, true, false⟩)], UpdState.idle⟩).2.1 =
      none := by
  have hflag : flagMessages M2 M = ⟨M2, [], []⟩ := by
    by_cases hM : M.length = 0
    · have hM2 : M2 = [] := by
        cases h2 : M2 with
        | nil => rfl
        | cons a t =>
          exfalso
          have h3 : a.key ∈ M.map Message.key := (hk a.key).mp (by rw [h2]; simp)
          rw [List.length_eq_zero.mp hM] at h3
          simp at h3
      rw [List.length_eq_zero.mp hM, hM2]
      rfl
    · by_cases hM2 : M2.length = 0
      · exfalso
        obtain ⟨a, ha⟩ := List.exists_mem_of_length_pos (Nat.pos_of_ne_zero hM)
        have h3 : a.key ∈ M2.map Message.key := (hk a.key).mpr (List.mem_map.mpr ⟨a, ha, rfl⟩)
        rw [List.length_eq_zero.mp hM2] at h3
        simp at h3
      · have hkeptOf : keptOf M2 M = M2 := by
          apply List.filter_eq_self.mpr
          intro a ha
          rw [hasKey_createKeyMessageMap]
          exact (memStr_iff _ _).mpr ((hk a.key).mp (List.mem_map.mpr ⟨a, ha, rfl⟩))
        have haddedOf : addedOf M2 M = [] := by
          apply List.filter_eq_nil_iff.mpr
          intro a ha
          rw [hasKey_createKeyMessageMap]
          have h4 := (memStr_iff (M.map Message.key) a.key).mpr
            ((hk a.key).mp (List.mem_map.mpr ⟨a, ha, rfl⟩))
          simp [h4]
        have hremovedOf : removedOf M2 M = [] := by
          unfold removedOf
          rw [hkeptOf]
          have h5 : (createKeyMessageMap M).filter
              (fun p => !memStr (M2.map Message.key) p.1) = [] := by
            apply List.filter_eq_nil_iff.mpr
            intro p hp
            have h4 := (memStr_iff (M2.map Message.key) p.1).mpr
              ((hk p.1).mpr (fst_mem_createKeyMessageMap M p hp))
            simp [h4]
          rw [h5]
          rfl
        unfold flagMessages
        rw [if_neg hM, if_neg hM2, hkeptOf, haddedOf, hremovedOf]
  refine ⟨hflag, ?_⟩
  simp [regUpdate, updateEnter, runPass, passStep, hflag]

/-- C5 witness: recommitting a one-message list with the same key. -/
theorem second_commit_no_batch_witness :
    flagMessages [mkMsg "a"] [mkMsg "a"] = ⟨[mkMsg "a"], [], []⟩ ∧
    (regUpdate ⟨[mkMsg "a"],
      [(getKey (some 1) "provider",
        ⟨[mkMsg "a"], "provider", some 1, [mkMsg "a"], true, false⟩)],
      UpdState.idle⟩).2.1 = none :=
  second_commit_no_batch [mkMsg "a"] [mkMsg "a"] (some 1) "provider" (fun _ => Iff.rfl)

/-! ## The dispatch coordinator (`LinterRegistry`, `src/lib/toggle-view.js`,
third segment) -/

/-- Per-provider dispatch state: the two request counters
(`$requestLatest` / `$requestLastReceived`) and the `$activated` registration
flag, together with the provider's name and scope. -/
structure LinterState where
  name : String
  scope : String
  requestLatest : Nat
  requestLastReceived : Nat
  activated : Bool
deriving DecidableEq, Repr

/-- Issuing a request in `lint()`: `number = ++linter[$requestLatest]`. -/
def issueRequest (l : LinterState) : LinterState × Nat :=
  ({ l with requestLatest := l.requestLatest + 1 }, l.requestLatest + 1)

/-- The success branch of the `lint()` promise handler for one resolved
invocation.  `statusBufferAlive` is `some b` for a file-scope provider (where
`b` is `statusBuffer.isAlive()` at resolution time, a fixed value in this
synchronous step) and `none` for a project-scope provider (whose
`statusBuffer` is the JS `null`).  The commit is skipped when
`lastReceived ≥ number`, when the provider is deregistered, or when the file
buffer is dead; otherwise `lastReceived` is advanced to `number` (the source
re-checks liveness right after, which is redundant here and kept for
fidelity).  A `null`/`undefined` result commits nothing further; otherwise
the messages are structurally validated only in dev mode (`validOk` models
the validator verdict on this list), then normalized and handed to the store. -/
def handleResolve (l : LinterState) (number : Nat) (statusBufferAlive : Option Bool)
    (messages : Option (List Message)) (inDevMode validOk : Bool) :
    LinterState × Option (List Message) :=
  if number ≤ l.requestLastReceived ∨ l.activated = false ∨ statusBufferAlive = some false then
    (l, none)
  else
    let l2 := { l with requestLastReceived := number }
    if statusBufferAlive = some false then
      (l2, none)
    else
      match messages with
      | none => (l2, none)
      | some msgs =>
        if inDevMode ∧ validOk = false then
          (l2, none)
        else
          (l2, some (normalizeMessages l2.name msgs))

/-- The `did-update-messages` wiring: a commit (`some` messages) is pushed to
the store via `MessageRegistry.set`; a skipped commit leaves the store
untouched. -/
def applyCommit (reg : MessageRegistry) (bufferId : Option Nat) (linterName : String) :
    Option (List Message) → MessageRegistry
  | none => reg
  | some msgs => regSet reg bufferId linterName msgs

/-- C1: a resolved invocation with request number `n` commits only if
`n > lastReceived` (hence `n ≥ lastReceived`), the provider is still
registered, and (for file-scope providers) the originating buffer is alive;
`lastReceived` is then advanced to `n`.  In particular, issuing requests #1
and #2 for the same provider and resolving #2 first commits #2, after which
#1 resolves to no commit, the counters are untouched, and the store holds
exactly #2's pushed result. -/
theorem resolved_commit_gate :
    (∀ (l : LinterState) (n : Nat) (alive : Option Bool) (msgs : Option (List Message))
        (dev vOk : Bool) (out : List Message),
      (handleResolve l n alive msgs dev vOk).2 = some out →
        l.requestLastReceived < n ∧ l.activated = true ∧ alive ≠ some false ∧
        (handleResolve l n alive msgs dev vOk).1.requestLastReceived = n) ∧
    (∀ (name : String) (alive : Option Bool) (M1 M2 : List Message), alive ≠ some false →
      (handleResolve (issueRequest (issueRequest ⟨name, "file", 0, 0, true⟩).1).1
          (issueRequest (issueRequest ⟨name, "file", 0, 0, true⟩).1).2 alive
          (some M2) false true).2 = some (normalizeMessages name M2) ∧
      (handleResolve (issueRequest (issueRequest ⟨name, "file", 0, 0, true⟩).1).1
          (issueRequest (issueRequest ⟨name, "file", 0, 0, true⟩).1).2 alive
          (some M2) false true).1.requestLastReceived = 2 ∧
      (handleResolve (handleResolve (issueRequest
            (issueRequest ⟨name, "file", 0, 0, true⟩).1).1
          (issueRequest (issueRequest ⟨name, "file", 0, 0, true⟩).1).2 alive
          (some M2) false true).1
          (issueRequest ⟨name, "file", 0, 0, true⟩).2 alive (some M1) false true) =
        ((handleResolve (issueRequest (issueRequest ⟨name, "file", 0, 0, true⟩).1).1
          (issueRequest (issueRequest ⟨name, "file", 0, 0, true⟩).1).2 alive
          (some M2) false true).1, none) ∧
      (∀ (reg : MessageRegistry) (bid : Option Nat),
        applyCommit (applyCommit reg bid name
            (handleResolve (issueRequest (issueRequest ⟨name, "file", 0, 0, true⟩).1).1
              (issueRequest (issueRequest ⟨name, "file", 0, 0, true⟩).1).2 alive
              (some M2) false true).2) bid name
            (handleResolve (handleResolve (issueRequest
                (issueRequest ⟨name, "file", 0, 0, true⟩).1).1
              (issueRequest (issueRequest ⟨name, "file", 0, 0, true⟩).1).2 alive
              (some M2) false true).1
              (issueRequest ⟨name, "file", 0, 0, true⟩).2 alive (some M1) false true).2 =
          regSet reg bid name (normalizeMessages name M2))) := by
  constructor
  · intro l n alive msgs dev vOk out h
    by_cases hg : n ≤ l.requestLastReceived ∨ l.activated = false ∨ alive = some false
    · unfold handleResolve at h
      rw [if_pos hg] at h
      exact absurd h (by simp)
    · push_neg at hg
      obtain ⟨h1, h2, h3⟩ := hg
      have h2' : l.activated = true := by simpa using h2
      have hnle := Nat.not_le.mpr h1
      refine ⟨h1, h2', h3, ?_⟩
      cases msgs with
      | none => simp [handleResolve, hnle, h2', h3]
      | some ms =>
        by_cases hv : dev = true ∧ vOk = false
        · simp [handleResolve, hnle, h2', h3, hv]
        · simp [handleResolve, hnle, h2', h3, hv]
  · intro name alive M1 M2 halive
    have hi1 : issueRequest ⟨name, "file", 0, 0, true⟩ =
        ((⟨name, "file", 1, 0, true⟩ : LinterState), 1) := rfl
    have hi2 : issueRequest (⟨name, "file", 1, 0, true⟩ : LinterState) =
        ((⟨name, "file", 2, 0, true⟩ : LinterState), 2) := rfl
    have hr2 : handleResolve ⟨name, "file", 2, 0, true⟩ 2 alive (some M2) false true =
        ((⟨name, "file", 2, 2, true⟩ : LinterState), some (normalizeMessages name M2)) := by
      simp [handleResolve, halive]
    have hr1 : handleResolve (⟨name, "file", 2, 2, true⟩ : LinterState) 1 alive
        (some M1) false true = ((⟨name, "file", 2, 2, true⟩ : LinterState), none) := by
      simp [handleResolve]
    refine ⟨?_, ?_, ?_, ?_⟩
    · simp [hi1, hi2, hr2]
    · simp [hi1, hi2, hr2]
    · simp [hi1, hi2, hr2, hr1]
    · intro reg bid
      simp [hi1, hi2, hr2, hr1, applyCommit]

/-- C1 witness: concrete provider, one concrete message, empty store. -/
theorem resolved_commit_gate_witness :
    (handleResolve (issueRequest (issueRequest ⟨"p", "file", 0, 0, true⟩).1).1
        (issueRequest (issueRequest ⟨"p", "file", 0, 0, true⟩).1).2 (some true)
        (some [mkMsg "a"]) false true).2 = some (normalizeMessages "p" [mkMsg "a"]) ∧
    (handleResolve (handleResolve (issueRequest
          (issueRequest ⟨"p", "file", 0, 0, true⟩).1).1
        (issueRequest (issueRequest ⟨"p", "file", 0, 0, true⟩).1).2 (some true)
        (some [mkMsg "a"]) false true).1
        (issueRequest ⟨"p", "file", 0, 0, true⟩).2 (some true) (some [mkMsg "b"]) false true).2 =
      none ∧
    applyCommit (applyCommit ⟨[], [], UpdState.idle⟩ (some 1) "p"
        (handleResolve (issueRequest (issueRequest ⟨"p", "file", 0, 0, true⟩).1).1
          (issueRequest (issueRequest ⟨"p", "file", 0, 0, true⟩).1).2 (some true)
          (some [mkMsg "a"]) false true).2) (some 1) "p"
        (handleResolve (handleResolve (issueRequest
            (issueRequest ⟨"p", "file", 0, 0, true⟩).1).1
          (issueRequest (issueRequest ⟨"p", "file", 0, 0, true⟩).1).2 (some true)
          (some [mkMsg "a"]) false true).1
          (issueRequest ⟨"p", "file", 0, 0, true⟩).2 (some true) (some [mkMsg "b"]) false true).2 =
      regSet ⟨[], [], UpdState.idle⟩ (some 1) "p" (normalizeMessages "p" [mkMsg "a"]) := by
  have h := resolved_commit_gate.2 "p" (some true) [mkMsg "b"] [mkMsg "a"] (by simp)
  exact ⟨h.1, by rw [h.2.2.1], h.2.2.2 ⟨[], [], UpdState.idle⟩ (some 1)⟩

/-- C10: a successful resolution carrying the JS `null`/`undefined` still
advances `lastReceived` to its request number but pushes nothing, so the
bucket keeps its previously accepted messages; any still-pending request with
a number ≤ that one is then discarded as stale when it resolves. -/
theorem null_result_advances_counter (l : LinterState) (n m : Nat) (alive : Option Bool)
    (dev vOk dev2 vOk2 : Bool) (M1 : List Message)
    (hact : l.activated = true) (halive : alive ≠ some false)
    (hfresh : l.requestLastReceived < n) (hm : m ≤ n) :
    (handleResolve l n alive none dev vOk).2 = none ∧
    (handleResolve l n alive none dev vOk).1.requestLastReceived = n ∧
    (∀ (reg : MessageRegistry) (bid : Option Nat),
      applyCommit reg bid l.name (handleResolve l n alive none dev vOk).2 = reg) ∧
    (handleResolve (handleResolve l n alive none dev vOk).1 m alive (some M1) dev2 vOk2) =
      ((handleResolve l n alive none dev vOk).1, none) := by
  have hr : handleResolve l n alive none dev vOk =
      ({ l with requestLastReceived := n }, none) := by
    simp [handleResolve, Nat.not_le.mpr hfresh, hact, halive]
  refine ⟨by rw [hr], by rw [hr], fun reg bid => by rw [hr]; rfl, ?_⟩
  rw [hr]
  show handleResolve { l with requestLastReceived := n } m alive (some M1) dev2 vOk2 = _
  simp [handleResolve, hm]

/-- C10 witness: concrete provider with a null result for request 2, then a
stale request 1. -/
theorem null_result_advances_counter_witness :
    (handleResolve ⟨"p", "file", 2, 0, true⟩ 2 none none false true).2 = none ∧
    (handleResolve ⟨"p", "file", 2, 0, true⟩ 2 none none false true).1.requestLastReceived = 2 ∧
    applyCommit ⟨[], [], UpdState.idle⟩ (some 1) "p"
      (handleResolve ⟨"p", "file", 2, 0, true⟩ 2 none none false true).2 =
      ⟨[], [], UpdState.idle⟩ ∧
    (handleResolve (handleResolve ⟨"p", "file", 2, 0, true⟩ 2 none none false true).1 1 none
        (some [mkMsg "a"]) false true) =
      ((handleResolve ⟨"p", "file", 2, 0, true⟩ 2 none none false true).1, none) := by
  have h := null_result_advances_counter ⟨"p", "file", 2, 0, true⟩ 2 1 none false true false true
    [mkMsg "a"] rfl (by simp) (by decide) (by decide)
  exact ⟨h.1, h.2.1, h.2.2.1 ⟨[], [], UpdState.idle⟩ (some 1), h.2.2.2⟩

/-! ## Timeout race and error notifications (`toggle-view.js`, third segment) -/

/-- The fixed per-invocation timeout (`LINTER_TIMEOUT_MS = 30000`). -/
def LINTER_TIMEOUT_MS : Nat := 30000

/-- Outcome of a settled promise: the resolution value (possibly the JS
`null`/`undefined`) or a rejection with an error message. -/
inductive Settlement where
  | resolved (messages : Option (List Message))
  | rejected (error : String)
deriving DecidableEq, Repr

/-- The message built by `createTimeoutPromise` (the JS string wraps the
linter name in single quotes, omitted here). -/
def timeoutMessage (linterName : String) : String :=
  "Linter " ++ linterName ++ " timed out after " ++ toString LINTER_TIMEOUT_MS ++ "ms"

/-- `Promise.race` of the provider invocation against `createTimeoutPromise`:
exactly one settlement is adopted — the provider outcome when it settles
within the timeout, and otherwise the timeout rejection; the losing
settlement never reaches the handler.  `t` is the provider settlement time in
milliseconds; a tie is won by the provider, listed first in the race array. -/
def raceWithTimeout (t : Nat) (outcome : Settlement) (linterName : String) : Settlement :=
  if t ≤ LINTER_TIMEOUT_MS then outcome else Settlement.rejected (timeoutMessage linterName)

/-- The `linter-error:` + name key deduplicating notifications. -/
def notificationKey (name : String) : String :=
  "linter-error:" ++ name

/-- The `activeNotifications` set of `LinterRegistry` (used only via
membership/add/delete). -/
structure NotifState where
  activeNotifications : List String
deriving DecidableEq, Repr

/-- The rejection handler's notification logic: if a notification for this
provider name is already active, do nothing; otherwise raise one (the `Bool`)
and record its key. -/
def handleReject (st : NotifState) (name : String) : NotifState × Bool :=
  if memStr st.activeNotifications (notificationKey name) then
    (st, false)
  else
    (⟨notificationKey name :: st.activeNotifications⟩, true)

/-- `onDidDismiss`: the notification's key is removed from the active set. -/
def dismissNotification (st : NotifState) (name : String) : NotifState :=
  ⟨st.activeNotifications.filter (fun k => k ≠ notificationKey name)⟩

/-- The two-armed `.then` handler applied to the race winner: a resolution
goes through the commit gate (`handleResolve`); a rejection skips the commit
entirely and only touches the notification state. -/
def processSettlement (l : LinterState) (n : Nat) (alive : Option Bool) (st : NotifState)
    (s : Settlement) (dev vOk : Bool) : LinterState × NotifState × Option (List Message) :=
  match s with
  | Settlement.resolved msgs =>
    ((handleResolve l n alive msgs dev vOk).1, st, (handleResolve l n alive msgs dev vOk).2)
  | Settlement.rejected _ => (l, (handleReject st l.name).1, none)

/-- C6: each invocation is raced against the fixed 30-second timeout, with a
single winning settlement; any failure skips the per-request commit and
leaves the counters untouched; an error notification is raised exactly when
none is active for that provider name, a second failure while one is
outstanding raises none, and after a dismissal a new one is allowed. -/
theorem timeout_race_error_dedup :
    (∀ (t : Nat) (o : Settlement) (nm : String),
      (t ≤ LINTER_TIMEOUT_MS → raceWithTimeout t o nm = o) ∧
      (LINTER_TIMEOUT_MS < t →
        raceWithTimeout t o nm = Settlement.rejected (timeoutMessage nm))) ∧
    (∀ (l : LinterState) (n : Nat) (alive : Option Bool) (st : NotifState) (e : String)
        (dev vOk : Bool),
      (processSettlement l n alive st (Settlement.rejected e) dev vOk).2.2 = none ∧
      (processSettlement l n alive st (Settlement.rejected e) dev vOk).1 = l) ∧
    (∀ (st : NotifState) (nm : String),
      (handleReject st nm).2 = !memStr st.activeNotifications (notificationKey nm)) ∧
    (∀ (st : NotifState) (nm : String),
      (handleReject (handleReject st nm).1 nm).2 = false) ∧
    (∀ (st : NotifState) (nm : String),
      (handleReject (dismissNotification st nm) nm).2 = true) := by
  refine ⟨?_, ?_, ?_, ?_, ?_⟩
  · intro t o nm
    exact ⟨fun h => by simp [raceWithTimeout, h],
      fun h => by simp [raceWithTimeout, Nat.not_le.mpr h]⟩
  · intro l n alive st e dev vOk
    exact ⟨rfl, rfl⟩
  · intro st nm
    cases h : memStr st.activeNotifications (notificationKey nm) <;> simp [handleReject, h]
  · intro st nm
    cases h : memStr st.activeNotifications (notificationKey nm)
    · have h2 : memStr (notificationKey nm :: st.activeNotifications)
          (notificationKey nm) = true :=
        (memStr_iff _ _).mpr (List.mem_cons_self _ _)
      simp [handleReject, h, h2]
    · simp [handleReject, h]
  · intro st nm
    have hnot : memStr (dismissNotification st nm).activeNotifications
        (notificationKey nm) = false := by
      rw [Bool.eq_false_iff]
      intro hc
      have hmem := (memStr_iff _ _).mp hc
      simp [dismissNotification, List.mem_filter] at hmem
    simp [handleReject, hnot]

/-- C6 witness at concrete settlement times and notification states. -/
theorem timeout_race_error_dedup_witness :
    (5 ≤ LINTER_TIMEOUT_MS ∧
      raceWithTimeout 5 (Settlement.resolved none) "p" = Settlement.resolved none) ∧
    (LINTER_TIMEOUT_MS < 40000 ∧
      raceWithTimeout 40000 (Settlement.resolved none) "p" =
        Settlement.rejected (timeoutMessage "p")) ∧
    (processSettlement ⟨"p", "file", 1, 0, true⟩ 1 none ⟨[]⟩
      (Settlement.rejected "boom") false true).2.2 = none ∧
    (handleReject ⟨[]⟩ "p").2 = !memStr [] (notificationKey "p") ∧
    (handleReject (handleReject ⟨[]⟩ "p").1 "p").2 = false ∧
    (handleReject (dismissNotification ⟨[]⟩ "p") "p").2 = true :=
  ⟨⟨by decide, (timeout_race_error_dedup.1 5 (Settlement.resolved none) "p").1 (by decide)⟩,
   ⟨by decide, (timeout_race_error_dedup.1 40000 (Settlement.resolved none) "p").2 (by decide)⟩,
   (timeout_race_error_dedup.2.1 ⟨"p", "file", 1, 0, true⟩ 1 none ⟨[]⟩ "boom" false true).1,
   timeout_race_error_dedup.2.2.1 ⟨[]⟩ "p",
   timeout_race_error_dedup.2.2.2.1 ⟨[]⟩ "p",
   timeout_race_error_dedup.2.2.2.2 ⟨[]⟩ "p"⟩

/-! ## Trigger eligibility (`helpers.js` and the `lint()` loop) -/

/-- A registered provider as the eligibility test sees it. -/
structure LinterProvider where
  name : String
  scope : String
  lintsOnChange : Bool
  grammarScopes : List String
deriving DecidableEq, Repr

/-- `shouldTriggerLinter` from `helpers.js`: a change-triggered lint requires
`lintsOnChange`; otherwise some editor scope must be in the provider's
`grammarScopes`.  The pre-computed `_grammarScopesSet` branch is the same
membership test and is not modelled separately. -/
def shouldTriggerLinter (linter : LinterProvider) (wasTriggeredOnChange : Bool)
    (scopes : List String) : Bool :=
  if wasTriggeredOnChange && !linter.lintsOnChange then false
  else scopes.any (fun scope => memStr linter.grammarScopes scope)

/-- `lodash/uniq`: first occurrences kept, in order. -/
def arrayUnique (l : List String) : List String :=
  l.foldl (fun acc x => if memStr acc x then acc else acc ++ [x]) []

/-- `getEditorCursorScopes` from `helpers.js`: deduplicated union of every
cursor's lexical scopes, seeded with the wildcard scope. -/
def getEditorCursorScopes (cursorScopes : List (List String)) : List String :=
  arrayUnique (cursorScopes.foldl (fun scopes cursor => scopes ++ cursor) ["*"])

/-- The provider loop of `lint()` minus the request bookkeeping: providers
surviving the `shouldTriggerLinter` and `disabledProviders` `continue`s. -/
def eligibleLinters (linters : List LinterProvider) (onChange : Bool) (scopes : List String)
    (disabled : List String) : List LinterProvider :=
  linters.filter (fun linter =>
    shouldTriggerLinter linter onChange scopes && !memStr disabled linter.name)

theorem mem_arrayUnique (l : List String) (x : String) : x ∈ arrayUnique l ↔ x ∈ l := by
  suffices h : ∀ acc, x ∈ l.foldl (fun acc y => if memStr acc y then acc else acc ++ [y]) acc ↔
      x ∈ acc ∨ x ∈ l by
    rw [arrayUnique, h []]
    simp
  induction l with
  | nil =>
    intro acc
    simp
  | cons y t ih =>
    intro acc
    rw [List.foldl_cons, ih _]
    by_cases hy : memStr acc y = true
    · rw [if_pos hy]
      have hy' := (memStr_iff acc y).mp hy
      simp only [List.mem_cons]
      constructor
      · rintro (h1 | h2)
        · exact Or.inl h1
        · exact Or.inr (Or.inr h2)
      · rintro (h1 | rfl | h2)
        · exact Or.inl h1
        · exact Or.inl hy'
        · exact Or.inr h2
    · rw [if_neg hy]
      simp only [List.mem_append, List.mem_cons, List.mem_singleton]
      tauto

theorem mem_foldl_append (l : List (List String)) (x : String) :
    ∀ init, x ∈ l.foldl (fun scopes cursor => scopes ++ cursor) init ↔
      x ∈ init ∨ ∃ c, c ∈ l ∧ x ∈ c := by
  induction l with
  | nil =>
    intro init
    simp
  | cons c t ih =>
    intro init
    rw [List.foldl_cons, ih _]
    simp only [List.mem_append, List.mem_cons]
    constructor
    · rintro ((h1 | h2) | ⟨d, hd, hx⟩)
      · exact Or.inl h1
      · exact Or.inr ⟨c, Or.inl rfl, h2⟩
      · exact Or.inr ⟨d, Or.inr hd, hx⟩
    · rintro (h1 | ⟨d, (rfl | hd), hx⟩)
      · exact Or.inl (Or.inl h1)
      · exact Or.inl (Or.inr hx)
      · exact Or.inr ⟨d, hd, hx⟩

/-- C7: a change-triggered lint never invokes a provider without
`lintsOnChange`; any invocation requires a scope of the editor's scope set to
lie in the provider's grammar filter; the scope set is exactly the wildcard
plus the union of all cursors' lexical scopes; and every provider surviving
the dispatch loop passes the trigger test and is not disabled. -/
theorem change_trigger_scope_gate :
    (∀ (linter : LinterProvider) (scopes : List String),
      shouldTriggerLinter linter true scopes = true → linter.lintsOnChange = true) ∧
    (∀ (linter : LinterProvider) (onChange : Bool) (scopes : List String),
      shouldTriggerLinter linter onChange scopes = true →
        ∃ s, s ∈ scopes ∧ s ∈ linter.grammarScopes) ∧
    (∀ cursorScopes : List (List String), "*" ∈ getEditorCursorScopes cursorScopes) ∧
    (∀ (cursorScopes : List (List String)) (s : String),
      s ∈ getEditorCursorScopes cursorScopes ↔
        s = "*" ∨ ∃ c, c ∈ cursorScopes ∧ s ∈ c) ∧
    (∀ (linters : List LinterProvider) (onChange : Bool) (scopes disabled : List String)
        (linter : LinterProvider), linter ∈ eligibleLinters linters onChange scopes disabled →
      shouldTriggerLinter linter onChange scopes = true ∧ linter.name ∉ disabled) := by
  have hmain : ∀ (linter : LinterProvider) (onChange : Bool) (scopes : List String),
      shouldTriggerLinter linter onChange scopes = true →
        ∃ s, s ∈ scopes ∧ s ∈ linter.grammarScopes := by
    intro linter onChange scopes h
    unfold shouldTriggerLinter at h
    by_cases hc : (onChange && !linter.lintsOnChange) = true
    · rw [if_pos hc] at h
      exact absurd h (by simp)
    · rw [if_neg hc] at h
      obtain ⟨s, hs, he⟩ := List.any_eq_true.mp h
      exact ⟨s, hs, (memStr_iff _ _).mp he⟩
  refine ⟨?_, hmain, ?_, ?_, ?_⟩
  · intro linter scopes h
    by_cases hl : linter.lintsOnChange = true
    · exact hl
    · exfalso
      have hb : linter.lintsOnChange = false := Bool.eq_false_iff.mpr hl
      have hc : (true && !linter.lintsOnChange) = true := by rw [hb]; rfl
      unfold shouldTriggerLinter at h
      rw [if_pos hc] at h
      exact absurd h (by simp)
  · intro cursorScopes
    rw [getEditorCursorScopes, mem_arrayUnique, mem_foldl_append]
    exact Or.inl (by simp)
  · intro cursorScopes s
    rw [getEditorCursorScopes, mem_arrayUnique, mem_foldl_append]
    simp
  · intro linters onChange scopes disabled linter h
    have h2 := (List.mem_filter.mp h).2
    have hA : shouldTriggerLinter linter onChange scopes = true := by
      cases hS : shouldTriggerLinter linter onChange scopes
      · rw [hS] at h2
        exact absurd h2 (by simp)
      · rfl
    refine ⟨hA, ?_⟩
    intro hmem
    have h4 : memStr disabled linter.name = true := (memStr_iff _ _).mpr hmem
    rw [hA, h4] at h2
    exact absurd h2 (by simp)

/-- A concrete provider for witnesses. -/
def sampleLinter : LinterProvider :=
  ⟨"p", "file", true, ["*", "source.js"]⟩

/-- C7 witness at a concrete provider, scope set and dispatch list. -/
theorem change_trigger_scope_gate_witness :
    sampleLinter.lintsOnChange = true ∧
    (∃ s, s ∈ ["source.js"] ∧ s ∈ sampleLinter.grammarScopes) ∧
    "*" ∈ getEditorCursorScopes [["source.js"]] ∧
    ("source.js" ∈ getEditorCursorScopes [["source.js"]] ↔
      "source.js" = "*" ∨ ∃ c, c ∈ [["source.js"]] ∧ "source.js" ∈ c) ∧
    (shouldTriggerLinter sampleLinter true ["source.js"] = true ∧
      sampleLinter.name ∉ ["q"]) :=
  ⟨change_trigger_scope_gate.1 sampleLinter ["source.js"] (by decide),
   change_trigger_scope_gate.2.1 sampleLinter true ["source.js"] (by decide),
   change_trigger_scope_gate.2.2.1 [["source.js"]],
   change_trigger_scope_gate.2.2.2.1 [["source.js"]] "source.js",
   change_trigger_scope_gate.2.2.2.2 [sampleLinter] true ["source.js"] ["q"] sampleLinter
     (by decide)⟩

/-! ## Path-ignore gate (`helpers.js` `isPathIgnored` and the `lint()` entry) -/

/-- `isPathIgnored` from `helpers.js`.  A JS `null`/`undefined` path is
`none`; the JS falsy check also catches the empty string.  The VCS repository
lookup is the pair `hasRepo`/`repoIgnores`; `minimatchFn` is the lazily
loaded matcher, `none` when the module failed to load (the `catch` returns
`false`); on win32 backslashes are normalized to slashes first. -/
def isPathIgnored (win32 hasRepo : Bool) (repoIgnores : String → Bool)
    (minimatchFn : Option (String → String → Bool)) (filePath : Option String)
    (ignoredGlob : String) (ignoredVCS : Bool) : Bool :=
  match filePath with
  | none => true
  | some p =>
    if p = "" then true
    else if ignoredVCS && hasRepo && repoIgnores p then true
    else
      match minimatchFn with
      | none => false
      | some mm => mm (if win32 then p.replace "\\" "/" else p) ignoredGlob

/-- The configuration slice `lint()` reads. -/
structure LintConfig where
  lintOnChange : Bool
  lintPreviewTabs : Bool
  ignoreGlob : String
  ignoreVCS : Bool
  disabledProviders : List String
deriving Repr

/-- The entry gate of `LinterRegistry.lint` followed by the provider loop:
returns `none` (the JS `return false`, no provider invoked) when the trigger
is a suppressed change trigger, a pending preview tab is excluded, or the
path is ignored; otherwise the eligible providers are invoked. -/
def lintDispatch (cfg : LintConfig) (linters : List LinterProvider) (onChange : Bool)
    (isPendingItem : Bool) (filePath : Option String) (scopes : List String)
    (win32 hasRepo : Bool) (repoIgnores : String → Bool)
    (minimatchFn : Option (String → String → Bool)) : Option (List LinterProvider) :=
  if (onChange && !cfg.lintOnChange) ||
      (!cfg.lintPreviewTabs && isPendingItem) ||
      isPathIgnored win32 hasRepo repoIgnores minimatchFn filePath cfg.ignoreGlob
        cfg.ignoreVCS then
    none
  else
    some (eligibleLinters linters onChange scopes cfg.disabledProviders)

/-- C9: for an absent file path (JS `null`/`undefined`/empty string),
`isPathIgnored` returns `true` whatever the glob, the VCS setting, or the
environment, so `lint()` bails out and no provider is invoked. -/
theorem absent_path_never_linted (filePath : Option String) (win32 hasRepo : Bool)
    (repoIgnores : String → Bool) (minimatchFn : Option (String → String → Bool))
    (glob : String) (vcs : Bool) (cfg : LintConfig) (linters : List LinterProvider)
    (onChange isPendingItem : Bool) (scopes : List String)
    (habsent : filePath = none ∨ filePath = some "") :
    isPathIgnored win32 hasRepo repoIgnores minimatchFn filePath glob vcs = true ∧
    lintDispatch cfg linters onChange isPendingItem filePath scopes win32 hasRepo
      repoIgnores minimatchFn = none := by
  rcases habsent with h | h <;> subst h <;>
    simp [isPathIgnored, lintDispatch]

/-- C9 witness: empty path, a glob and VCS setting that would otherwise not
match, a provider that would otherwise be eligible. -/
theorem absent_path_never_linted_witness :
    isPathIgnored false true (fun _ => false) (some (fun _ _ => false)) (some "")
      "**" false = true ∧
    lintDispatch ⟨true, true, "**", false, []⟩ [sampleLinter] false false (some "")
      ["source.js"] false true (fun _ => false) (some (fun _ _ => false)) = none :=
  absent_path_never_linted (some "") false true (fun _ => false) (some (fun _ _ => false))
    "**" false ⟨true, true, "**", false, []⟩ [sampleLinter] false false ["source.js"]
    (Or.inr rfl)

/-! ## The change-debounce controller (`EditorLinter`, `src/lib/editor-linter.js`) -/

/-- Listener state of one `EditorLinter`: the id of the current debounced
change handler (`currentDebouncedChangeHandler`), the handler ids holding a
live `onDidChange` subscription (`currentBufferChangeSubscription` — the code
intends exactly one), the handler ids with a pending debounced invocation,
and a fresh-id counter. -/
structure EditorLinterState where
  currentHandler : Nat
  liveSubs : List Nat
  pendingHandlers : List Nat
  nextId : Nat
deriving DecidableEq, Repr

/-- State after the constructor: handler 0 installed and subscribed, nothing
pending. -/
def initialEditorLinter : EditorLinterState :=
  ⟨0, [0], [], 1⟩

/-- A raw buffer change event: every subscribed handler gets a pending
debounced invocation. -/
def bufferChanged (s : EditorLinterState) : EditorLinterState :=
  { s with pendingHandlers := s.pendingHandlers ++ s.liveSubs }

/-- A debounce timer firing for handler `h` consumes its pending
invocation. -/
def debounceFired (s : EditorLinterState) (h : Nat) : EditorLinterState :=
  { s with pendingHandlers := s.pendingHandlers.filter (fun x => x ≠ h) }

/-- First step of the `lintOnChangeInterval` observe callback:
`currentDebouncedChangeHandler.cancel()` — drop the current handler's pending
invocation. -/
def cancelCurrentPending (s : EditorLinterState) : EditorLinterState :=
  { s with pendingHandlers := s.pendingHandlers.filter (fun x => x ≠ s.currentHandler) }

/-- Second step: `currentBufferChangeSubscription.dispose()` — drop the
current handler's live subscription. -/
def disposeCurrentSub (s : EditorLinterState) : EditorLinterState :=
  { s with liveSubs := s.liveSubs.filter (fun x => x ≠ s.currentHandler) }

/-- Third step: create the new debounced handler with the updated interval. -/
def installNewHandler (s : EditorLinterState) : EditorLinterState :=
  { s with currentHandler := s.nextId, nextId := s.nextId + 1 }

/-- Fourth step: subscribe the new handler to `onDidChange`. -/
def subscribeCurrent (s : EditorLinterState) : EditorLinterState :=
  { s with liveSubs := s.liveSubs ++ [s.currentHandler] }

/-- The whole observe callback run on an interval change, in source order:
cancel pending, dispose the old subscription, create the new handler,
subscribe it. -/
def intervalChanged (s : EditorLinterState) : EditorLinterState :=
  subscribeCurrent (installNewHandler (disposeCurrentSub (cancelCurrentPending s)))

/-- States reachable over the lifetime of one `EditorLinter`. -/
inductive ELReach : EditorLinterState → Prop where
  | init : ELReach initialEditorLinter
  | change (s : EditorLinterState) : ELReach s → ELReach (bufferChanged s)
  | fired (s : EditorLinterState) (h : Nat) : ELReach s → ELReach (debounceFired s h)
  | interval (s : EditorLinterState) : ELReach s → ELReach (intervalChanged s)

/-- Reachability invariant: only the current handler is ever subscribed or
pending, at most one subscription is live, and the current handler id is
below the fresh counter. -/
def ELInv (s : EditorLinterState) : Prop :=
  (∀ h ∈ s.liveSubs, h = s.currentHandler) ∧
  (∀ h ∈ s.pendingHandlers, h = s.currentHandler) ∧
  s.liveSubs.length ≤ 1 ∧ s.currentHandler < s.nextId

theorem filter_ne_eq_nil_of_all_eq {l : List Nat} {c : Nat} (h : ∀ x ∈ l, x = c) :
    l.filter (fun x => x ≠ c) = [] := by
  apply List.filter_eq_nil_iff.mpr
  intro a ha
  simp [h a ha]

theorem elInv_of_reach (s : EditorLinterState) (hs : ELReach s) : ELInv s := by
  induction hs with
  | init =>
    refine ⟨?_, ?_, ?_, ?_⟩
    · intro h hh
      simp [initialEditorLinter] at hh ⊢
      exact hh
    · intro h hh
      simp [initialEditorLinter] at hh
    · simp [initialEditorLinter]
    · simp [initialEditorLinter]
  | change t _ ih =>
    obtain ⟨i1, i2, i3, i4⟩ := ih
    refine ⟨i1, ?_, i3, i4⟩
    intro h hh
    rcases List.mem_append.mp hh with h1 | h2
    · exact i2 h h1
    · exact i1 h h2
  | fired t hid _ ih =>
    obtain ⟨i1, i2, i3, i4⟩ := ih
    refine ⟨i1, ?_, i3, i4⟩
    intro h hh
    exact i2 h (List.mem_filter.mp hh).1
  | interval t _ ih =>
    obtain ⟨i1, i2, i3, i4⟩ := ih
    have hsub : (disposeCurrentSub (cancelCurrentPending t)).liveSubs = [] :=
      filter_ne_eq_nil_of_all_eq i1
    have hpend : (cancelCurrentPending t).pendingHandlers = [] :=
      filter_ne_eq_nil_of_all_eq i2
    refine ⟨?_, ?_, ?_, ?_⟩
    · intro h hh
      show h = t.nextId
      have : (intervalChanged t).liveSubs = [t.nextId] := by
        show (disposeCurrentSub (cancelCurrentPending t)).liveSubs ++ [t.nextId] = _
        rw [hsub]
        rfl
      rw [this] at hh
      simpa using hh
    · intro h hh
      have : (intervalChanged t).pendingHandlers = [] := by
        show (cancelCurrentPending t).pendingHandlers = []
        exact hpend
      rw [this] at hh
      simp at hh
    · have : (intervalChanged t).liveSubs = [t.nextId] := by
        show (disposeCurrentSub (cancelCurrentPending t)).liveSubs ++ [t.nextId] = _
        rw [hsub]
        rfl
      rw [this]
      simp
    · show t.nextId < t.nextId + 1
      exact Nat.lt_succ_self _

/-- C8: in every reachable listener state at most one buffer-change
subscription is live; when the configured interval changes, the old handler's
pending invocation is cancelled and its subscription disposed before the new
handler is installed and subscribed, at no intermediate point are two change
listeners live, and afterwards exactly the fresh handler (distinct from the
old one) is subscribed, with nothing pending. -/
theorem interval_change_single_listener (s : EditorLinterState) (hs : ELReach s) :
    s.liveSubs.length ≤ 1 ∧
    s.currentHandler ∉ (cancelCurrentPending s).pendingHandlers ∧
    s.currentHandler ∉ (disposeCurrentSub (cancelCurrentPending s)).liveSubs ∧
    (cancelCurrentPending s).liveSubs.length ≤ 1 ∧
    (disposeCurrentSub (cancelCurrentPending s)).liveSubs.length ≤ 1 ∧
    (installNewHandler (disposeCurrentSub (cancelCurrentPending s))).liveSubs.length ≤ 1 ∧
    (intervalChanged s).liveSubs = [(intervalChanged s).currentHandler] ∧
    (intervalChanged s).currentHandler ≠ s.currentHandler ∧
    (intervalChanged s).pendingHandlers = [] := by
  obtain ⟨i1, i2, i3, i4⟩ := elInv_of_reach s hs
  have hsub : (disposeCurrentSub (cancelCurrentPending s)).liveSubs = [] :=
    filter_ne_eq_nil_of_all_eq i1
  have hpend : (cancelCurrentPending s).pendingHandlers = [] :=
    filter_ne_eq_nil_of_all_eq i2
  refine ⟨i3, ?_, ?_, i3, ?_, ?_, ?_, ?_, ?_⟩
  · rw [show (cancelCurrentPending s).pendingHandlers = [] from hpend]
    simp
  · rw [hsub]
    simp
  · rw [hsub]
    simp
  · show (disposeCurrentSub (cancelCurrentPending s)).liveSubs.length ≤ 1
    rw [hsub]
    simp
  · show (disposeCurrentSub (cancelCurrentPending s)).liveSubs ++ [s.nextId] = [s.nextId]
    rw [hsub]
    rfl
  · show s.nextId ≠ s.currentHandler
    omega
  · show (cancelCurrentPending s).pendingHandlers = []
    exact hpend

/-- C8 witness at the initial state after one buffer change. -/
theorem interval_change_single_listener_witness :
    (bufferChanged initialEditorLinter).liveSubs.length ≤ 1 ∧
    (bufferChanged initialEditorLinter).currentHandler ∉
      (cancelCurrentPending (bufferChanged initialEditorLinter)).pendingHandlers ∧
    (bufferChanged initialEditorLinter).currentHandler ∉
      (disposeCurrentSub (cancelCurrentPending (bufferChanged initialEditorLinter))).liveSubs ∧
    (cancelCurrentPending (bufferChanged initialEditorLinter)).liveSubs.length ≤ 1 ∧
    (disposeCurrentSub (cancelCurrentPending
      (bufferChanged initialEditorLinter))).liveSubs.length ≤ 1 ∧
    (installNewHandler (disposeCurrentSub (cancelCurrentPending
      (bufferChanged initialEditorLinter)))).liveSubs.length ≤ 1 ∧
    (intervalChanged (bufferChanged initialEditorLinter)).liveSubs =
      [(intervalChanged (bufferChanged initialEditorLinter)).currentHandler] ∧
    (intervalChanged (bufferChanged initialEditorLinter)).currentHandler ≠
      (bufferChanged initialEditorLinter).currentHandler ∧
    (intervalChanged (bufferChanged initialEditorLinter)).pendingHandlers = [] :=
  interval_change_single_listener (bufferChanged initialEditorLinter)
    (ELReach.change initialEditorLinter ELReach.init)

end LinterBundle
